import Mathlib

/-!
Verification of the io_scene_psk_psa PSK/PSA importer/exporter core.

The Python sources under `io_scene_psk_psa/` are shallowly embedded below:
pure functions become Lean functions, Python `int` becomes `Int`/`Nat`,
Python floats (frame positions, FPS values, quaternion components) are
modelled as exact rationals `ℚ`, fallible code returns `Option`/`Except`.
Blender host objects (actions, pose bones, f-curves) appear only through
the data the embedded code actually reads from them.
-/

/-! ## Generic helpers (Python builtins used by the sources) -/

/-- Model of Python's `max(iterable)` on a non-empty list; every call site
in the embedded code guards the call with a non-emptiness check, so the
`[]` case (a `ValueError` in Python) is never reached. -/
def maxOf {α : Type} [Max α] [Inhabited α] : List α → α
  | [] => default
  | x :: xs => xs.foldl max x

/-- Model of Python's `min(iterable)` on a non-empty list; every call site
in the embedded code guards the call with a non-emptiness check. -/
def minOf {α : Type} [Min α] [Inhabited α] : List α → α
  | [] => default
  | x :: xs => xs.foldl min x

/-- Model of Python's `list.index(x)`: index of the first element equal to
`x`, or `none` where Python raises `ValueError`. -/
def pyListIndex (l : List String) (x : String) : Option Nat :=
  l.findIdx? (fun y => y == x)

/-- Model of one Python `dict[k] = v` assignment on an insertion-ordered
dictionary represented as an association list: an existing key keeps its
position and gets the new value, a new key is appended at the end. -/
def dictInsert {κ β : Type} [DecidableEq κ] (k : κ) (v : β) : List (κ × β) → List (κ × β)
  | [] => [(k, v)]
  | (k₀, v₀) :: rest => if k₀ = k then (k, v) :: rest else (k₀, v₀) :: dictInsert k v rest

/-! ## `psk/data.py`: the in-memory PSK document

The shared `data` module (`Vector2`, `Vector3`, `Color`, `Quaternion`) is
not part of the sources at hand; its record types are modelled from the
spec's data model (§3) as plain coordinate tuples over `ℚ`.  Only the
fields are needed; no operations of that module are used below. -/

structure DataVector2 where
  x : ℚ
  y : ℚ
deriving DecidableEq

structure DataVector3 where
  x : ℚ
  y : ℚ
  z : ℚ
deriving DecidableEq

structure DataColor where
  r : ℚ
  g : ℚ
  b : ℚ
  a : ℚ
deriving DecidableEq

/-- Quaternion record of the shared `data` module (file layout order). -/
structure DataQuaternion where
  x : ℚ
  y : ℚ
  z : ℚ
  w : ℚ
deriving DecidableEq

namespace Psk

/-- Logical wedge record (`Psk.Wedge`); the 16-bit and 32-bit physical
encodings both decode to this. -/
structure Wedge where
  point_index : Nat
  u : ℚ
  v : ℚ
  material_index : Nat
deriving DecidableEq

structure Face where
  wedge_indices : Nat × Nat × Nat
  material_index : Nat
  aux_material_index : Nat
  smoothing_groups : Int
deriving DecidableEq

structure Material where
  name : String
  texture_index : Int
  poly_flags : Int
  aux_material : Int
  aux_flags : Int
  lod_bias : Int
  lod_style : Int
deriving DecidableEq

structure Bone where
  name : String
  flags : Int
  children_count : Int
  parent_index : Int
  rotation : DataQuaternion
  location : DataVector3
  length : ℚ
  size : DataVector3
deriving DecidableEq

structure Weight where
  weight : ℚ
  point_index : Int
  bone_index : Int
deriving DecidableEq

structure MorphInfo where
  name : String
  vertex_count : Int
deriving DecidableEq

structure MorphData where
  position_delta : DataVector3
  tangent_z_delta : DataVector3
  point_index : Int
deriving DecidableEq

end Psk

/-- The `Psk` document object (`psk/data.py`, `Psk.__init__` field list). -/
structure Psk where
  points : List DataVector3
  wedges : List Psk.Wedge
  faces : List Psk.Face
  materials : List Psk.Material
  weights : List Psk.Weight
  bones : List Psk.Bone
  extra_uvs : List DataVector2
  vertex_colors : List DataColor
  vertex_normals : List DataVector3
  morph_infos : List Psk.MorphInfo
  morph_data : List Psk.MorphData
  material_references : List String

/-- A freshly constructed document (`Psk.__init__`): every list empty. -/
def Psk.new : Psk :=
  { points := [], wedges := [], faces := [], materials := [], weights := []
    bones := [], extra_uvs := [], vertex_colors := [], vertex_normals := []
    morph_infos := [], morph_data := [], material_references := [] }

/-- Property `Psk.has_extra_uvs`. -/
def Psk.has_extra_uvs (psk : Psk) : Bool := psk.extra_uvs.length > 0

/-- Property `Psk.has_vertex_colors`. -/
def Psk.has_vertex_colors (psk : Psk) : Bool := psk.vertex_colors.length > 0

/-- Property `Psk.has_vertex_normals`. -/
def Psk.has_vertex_normals (psk : Psk) : Bool := psk.vertex_normals.length > 0

/-- Property `Psk.has_material_references`. -/
def Psk.has_material_references (psk : Psk) : Bool := psk.material_references.length > 0

/-- Property `Psk.has_morph_data`: `len(self.morph_infos) > 0`. -/
def Psk.has_morph_data (psk : Psk) : Bool := psk.morph_infos.length > 0

/-- Model of Python's `str.lower()` as the per-character ASCII lowercase
map; PSA/armature bone names are ASCII, where the two agree. -/
def pyLower (s : String) : String :=
  ⟨s.data.map Char.toLower⟩

/-! ## `psa/importer.py`: bone-name matching (`_get_armature_bone_index_for_psa_bone`)

Python's `str.lower()` is modelled by `pyLower`. -/

/-- Loop body of `_get_armature_bone_index_for_psa_bone`: `i` is the
running `enumerate` counter. -/
def _get_armature_bone_index_aux (psa_bone_name : String) (bone_mapping_mode : String) :
    List String → Nat → Option Nat
  | [], _ => none
  | armature_bone_name :: rest, i =>
    if bone_mapping_mode = "CASE_INSENSITIVE" then
      if pyLower armature_bone_name = pyLower psa_bone_name then some i
      else _get_armature_bone_index_aux psa_bone_name bone_mapping_mode rest (i + 1)
    else
      if armature_bone_name = psa_bone_name then some i
      else _get_armature_bone_index_aux psa_bone_name bone_mapping_mode rest (i + 1)

/-- Embedding of `_get_armature_bone_index_for_psa_bone` (importer.py
lines 61-75): scan `armature_bone_names` in order and return the index of
the first name equal to `psa_bone_name` under the selected mode, or
`none`. -/
def _get_armature_bone_index_for_psa_bone (psa_bone_name : String)
    (armature_bone_names : List String) (bone_mapping_mode : String := "EXACT") : Option Nat :=
  _get_armature_bone_index_aux psa_bone_name bone_mapping_mode armature_bone_names 0

/-- The name-equality policy selected by `bone_mapping_mode`, as the spec
describes it: case-folded comparison for `CASE_INSENSITIVE`, exact
comparison otherwise. -/
def nameMatches (bone_mapping_mode : String) (armature_bone_name psa_bone_name : String) : Prop :=
  if bone_mapping_mode = "CASE_INSENSITIVE" then
    pyLower armature_bone_name = pyLower psa_bone_name
  else
    armature_bone_name = psa_bone_name

instance (m a b : String) : Decidable (nameMatches m a b) := by
  unfold nameMatches
  exact inferInstanceAs (Decidable _)

/-! ## `psa/importer.py`: the bone-mapping phase of `import_psa` (lines 84-120)

The loop builds the PSA-to-armature index mapping, the reverse mapping,
the diagnostic name list and the duplicate-mapping (collision) list.  The
two Python dicts are insertion-ordered and modelled as association lists.
`armature_bone_names.index(psa_bone_name)` raises `ValueError` when the
PSA bone name is not literally present among the armature names; this is
modelled by the whole phase returning `none`. -/

structure PsaBoneMappingState where
  psa_to_armature_bone_indices : List (Nat × Nat)
  armature_to_psa_bone_indices : List (Nat × Nat)
  psa_bone_names : List String
  duplicate_mappings : List (Nat × Nat × Nat)
deriving DecidableEq

/-- Loop of the mapping phase; `psa_bone_index` is the `enumerate`
counter. -/
def map_psa_bones_loop (armature_bone_names : List String) (bone_mapping_mode : String) :
    List String → Nat → PsaBoneMappingState → Option PsaBoneMappingState
  | [], _, st => some st
  | psa_bone_name :: rest, psa_bone_index, st =>
    match _get_armature_bone_index_for_psa_bone psa_bone_name armature_bone_names bone_mapping_mode with
    | some armature_bone_index =>
      match st.armature_to_psa_bone_indices.lookup armature_bone_index with
      | none =>
        match pyListIndex armature_bone_names psa_bone_name with
        | some exact_index =>
          map_psa_bones_loop armature_bone_names bone_mapping_mode rest (psa_bone_index + 1)
            { st with
              psa_to_armature_bone_indices :=
                dictInsert psa_bone_index exact_index st.psa_to_armature_bone_indices
              armature_to_psa_bone_indices :=
                dictInsert armature_bone_index psa_bone_index st.armature_to_psa_bone_indices
              psa_bone_names :=
                st.psa_bone_names ++ [armature_bone_names.getD armature_bone_index ""] }
        | none => none
      | some mapped_psa_bone_index =>
        map_psa_bones_loop armature_bone_names bone_mapping_mode rest (psa_bone_index + 1)
          { st with
            duplicate_mappings :=
              st.duplicate_mappings ++ [(psa_bone_index, armature_bone_index, mapped_psa_bone_index)]
            psa_bone_names :=
              st.psa_bone_names ++ [armature_bone_names.getD armature_bone_index ""] }
    | none =>
      map_psa_bones_loop armature_bone_names bone_mapping_mode rest (psa_bone_index + 1)
        { st with psa_bone_names := st.psa_bone_names ++ [psa_bone_name] }

/-- The bone-mapping phase of `import_psa` run on the decoded PSA bone
names: `none` models the uncaught `ValueError` raised by
`armature_bone_names.index(psa_bone_name)`. -/
def map_psa_bones_to_armature (psa_bone_names armature_bone_names : List String)
    (bone_mapping_mode : String) : Option PsaBoneMappingState :=
  map_psa_bones_loop armature_bone_names bone_mapping_mode psa_bone_names 0
    { psa_to_armature_bone_indices := []
      armature_to_psa_bone_indices := []
      psa_bone_names := []
      duplicate_mappings := [] }

/-- The `missing_bone_names` computation of `import_psa` (line 114):
`set(psa_bone_names).difference(set(armature_bone_names))`, as a
duplicate-free list. -/
def missing_bone_names (st : PsaBoneMappingState) (armature_bone_names : List String) :
    List String :=
  (st.psa_bone_names.filter (fun n => !armature_bone_names.contains n)).dedup

/-! ## `psa/import_/operators.py`: `PSA_OT_import.execute`

The operator body is modelled on the data it inspects: the sequence list
(name and selection flag per entry) and, abstractly, the warning list the
`import_psa` call would produce if reached.  All action creation and
modification happens inside `import_psa`, so `import_psa_invoked = false`
entails that no action was created or modified. -/

structure PsaSequenceListItem where
  action_name : String
  is_selected : Bool
deriving DecidableEq

inductive OperatorStatus
  | FINISHED
  | CANCELLED
deriving DecidableEq

structure PsaImportExecuteOutcome where
  status : OperatorStatus
  reports : List (String × String)
  import_psa_invoked : Bool
deriving DecidableEq

/-- Embedding of `PSA_OT_import.execute` (import_/operators.py lines
154-184). -/
def psa_import_execute (sequence_list : List PsaSequenceListItem)
    (import_warnings : List String) : PsaImportExecuteOutcome :=
  let sequence_names := (sequence_list.filter (fun x => x.is_selected)).map (fun x => x.action_name)
  if sequence_names.length = 0 then
    { status := .CANCELLED
      reports := [("ERROR_INVALID_CONTEXT", "No sequences selected")]
      import_psa_invoked := false }
  else if import_warnings.length > 0 then
    { status := .FINISHED
      reports :=
        ("WARNING", "Imported " ++ toString sequence_names.length ++ " action(s) with "
            ++ toString import_warnings.length ++ " warning(s)\n")
          :: import_warnings.map (fun w => ("WARNING", w))
      import_psa_invoked := true }
  else
    { status := .FINISHED
      reports := [("INFO", "Imported " ++ toString sequence_names.length ++ " action(s)")]
      import_psa_invoked := true }

/-! ## `psa/export/operators.py`: `get_sequence_fps` (lines 91-109)

A Blender action contributes to the FPS computation only through its
optional `psa_sequence_fps` custom property; the property value may be
numeric (`int`/`float`, modelled as `ℚ`) or of some other type. -/

inductive PsaMetadataValue
  | num (value : ℚ)
  | other
deriving DecidableEq

structure FpsAction where
  psa_sequence_fps : Option PsaMetadataValue

/-- The `fps_list` computed inside `get_sequence_fps` for the
`ACTION_METADATA` source: the numeric `psa_sequence_fps` values of the
contributing actions, in order. -/
def action_metadata_fps_list (actions : List FpsAction) : List ℚ :=
  actions.filterMap (fun action =>
    match action.psa_sequence_fps with
    | some (.num fps) => some fps
    | _ => none)

/-- Embedding of `get_sequence_fps`: `scene_fps` is
`context.scene.render.fps`; the unrecognized-source `RuntimeError` is an
`Except.error`. -/
def get_sequence_fps (scene_fps : ℚ) (fps_source : String) (fps_custom : ℚ)
    (actions : List FpsAction) : Except String ℚ :=
  if fps_source = "SCENE" then .ok scene_fps
  else if fps_source = "CUSTOM" then .ok fps_custom
  else if fps_source = "ACTION_METADATA" then
    let fps_list := action_metadata_fps_list actions
    if fps_list.length > 0 then .ok (minOf fps_list)
    else .ok scene_fps
  else .error ("Invalid FPS source " ++ fps_source)

/-! ## `psa/export/operators.py`: sequence extraction from named segments

`get_sequences_from_action` and `get_sequences_from_action_pose_marker`
split a segment name with `re.match(r'(.+)/(.+)', name)`.  In Python `.`
matches any character except a newline and the two `.+` groups are
greedy, so a successful match selects the last `/` inside the maximal
newline-free prefix of the name that has at least one character before it
and one (non-newline) character after it; group 1 is everything before
that `/`, group 2 is the newline-free run after it (re.match does not
anchor the end, so anything from the first newline on is left unmatched). -/

/-- Index of the last such eligible `/` in the newline-free prefix `p`;
`i` is the index of the head of the remaining list within `p`. -/
def lastEligibleSlashAux : List Char → Nat → Option Nat
  | [], _ => none
  | c :: rest, i =>
    match lastEligibleSlashAux rest (i + 1) with
    | some k => some k
    | none => if c = '/' ∧ 1 ≤ i ∧ rest ≠ [] then some i else none

def lastEligibleSlash (p : List Char) : Option Nat :=
  lastEligibleSlashAux p 0

/-- Model of `re.match(r'(.+)/(.+)', name)`, returning the two captured
groups on success. -/
def matchReversedName (name : String) : Option (String × String) :=
  let p := name.toList.takeWhile (fun c => c ≠ '\n')
  match lastEligibleSlash p with
  | some k => some (⟨p.take k⟩, ⟨p.drop (k + 1)⟩)
  | none => none

/-- The data of a Blender `Action` read by sequence extraction:
`frame_range` is its (start, end) frame pair, already truncated to `int`
as the source does. -/
structure BlenderAction where
  name : String
  frame_range : Int × Int
deriving DecidableEq

/-- A pose marker or timeline marker: a name at a frame. -/
structure PoseMarker where
  name : String
  frame : Int
deriving DecidableEq

/-- Embedding of `get_sequences_from_action` (export/operators.py lines
177-190). -/
def get_sequences_from_action (action : BlenderAction) : List (String × Int × Int) :=
  let frame_start := action.frame_range.1
  let frame_end := action.frame_range.2
  match matchReversedName action.name with
  | some (forward_name, backwards_name) =>
    [(forward_name, frame_start, frame_end), (backwards_name, frame_end, frame_start)]
  | none => [(action.name, frame_start, frame_end)]

/-- Embedding of `get_sequences_from_action_pose_marker` (lines 193-209);
`pose_markers` is the frame-sorted pose-marker list of the action and
`pose_marker_index` the position of `pose_marker` in it. -/
def get_sequences_from_action_pose_marker (action : BlenderAction)
    (pose_markers : List PoseMarker) (pose_marker : PoseMarker) (pose_marker_index : Nat) :
    List (String × Int × Int) :=
  let frame_start := pose_marker.frame
  let frame_end :=
    match pose_markers.get? (pose_marker_index + 1) with
    | some next_marker => next_marker.frame
    | none => action.frame_range.2
  match matchReversedName pose_marker.name with
  | some (forward_name, backwards_name) =>
    [(forward_name, frame_start, frame_end), (backwards_name, frame_end, frame_start)]
  | none => [(pose_marker.name, frame_start, frame_end)]

/-! ## `psa/importer.py`: the space-conversion core (`_calculate_fcurve_data`)

`mathutils` types are modelled over exact rationals.
`Quaternion.rotate(value)` composes rotations so that `value` is applied
after `self` (in Blender it goes through 3x3 rotation matrices, which for
unit quaternions equals the Hamilton product `value * self` up to overall
sign, and the sign cancels in the results proved below);
`Vector.rotate(q)` applies the rotation `q` to the vector,
`q * (0, v) * conj q` for a unit quaternion `q`. -/

structure MQuaternion where
  w : ℚ
  x : ℚ
  y : ℚ
  z : ℚ
deriving DecidableEq

/-- Hamilton product of quaternions. -/
def qmul (a b : MQuaternion) : MQuaternion :=
  { w := a.w * b.w - a.x * b.x - a.y * b.y - a.z * b.z
    x := a.w * b.x + a.x * b.w + a.y * b.z - a.z * b.y
    y := a.w * b.y - a.x * b.z + a.y * b.w + a.z * b.x
    z := a.w * b.z + a.x * b.y - a.y * b.x + a.z * b.w }

/-- `mathutils.Quaternion.conjugated()`. -/
def MQuaternion.conjugated (q : MQuaternion) : MQuaternion :=
  { w := q.w, x := -q.x, y := -q.y, z := -q.z }

/-- Squared norm of a quaternion; a rotation quaternion has `qnormSq = 1`. -/
def qnormSq (q : MQuaternion) : ℚ :=
  q.w * q.w + q.x * q.x + q.y * q.y + q.z * q.z

/-- `mathutils.Quaternion.rotate(value)`: `self` becomes the composition
applying `self` first and `value` second. -/
def MQuaternion.rotate (self value : MQuaternion) : MQuaternion :=
  qmul value self

structure MVector where
  x : ℚ
  y : ℚ
  z : ℚ
deriving DecidableEq

/-- Componentwise vector subtraction (`mathutils.Vector` difference). -/
def MVector.sub (a b : MVector) : MVector :=
  { x := a.x - b.x, y := a.y - b.y, z := a.z - b.z }

/-- `mathutils.Vector.rotate(q)` for a rotation quaternion `q`. -/
def MVector.rotate (v : MVector) (q : MQuaternion) : MVector :=
  let p := qmul (qmul q { w := 0, x := v.x, y := v.y, z := v.z }) q.conjugated
  { x := p.x, y := p.y, z := p.z }

/-- The transient `ImportBone` of `import_psa`, restricted to the fields
`_calculate_fcurve_data` reads; the Blender handles (`psa_bone`,
`armature_bone`, `pose_bone`, `fcurves`) are host references the
conversion never inspects.  The parent back-reference makes the type
recursive, mirroring `self.parent: Optional[ImportBone]`. -/
inductive ImportBone where
  | mk (parent : Option ImportBone) (orig_loc : MVector) (orig_quat : MQuaternion)
      (post_quat : MQuaternion)

def ImportBone.parent : ImportBone → Option ImportBone
  | .mk p _ _ _ => p

def ImportBone.orig_loc : ImportBone → MVector
  | .mk _ l _ _ => l

def ImportBone.orig_quat : ImportBone → MQuaternion
  | .mk _ _ q _ => q

def ImportBone.post_quat : ImportBone → MQuaternion
  | .mk _ _ _ q => q

/-- Embedding of `_calculate_fcurve_data` (importer.py lines 38-53): the
7-float sample row `key_data` is its rotation slice `key_data[0:4]` and
location slice `key_data[4:]`; the result is the 7-tuple of f-curve
values `(Qw, Qx, Qy, Qz, Lx, Ly, Lz)`. -/
def _calculate_fcurve_data (import_bone : ImportBone) (key_rotation : MQuaternion)
    (key_location : MVector) : ℚ × ℚ × ℚ × ℚ × ℚ × ℚ × ℚ :=
  let q := import_bone.post_quat.rotate import_bone.orig_quat
  let quat := q
  let q :=
    if import_bone.parent.isNone then
      import_bone.post_quat.rotate key_rotation.conjugated
    else
      import_bone.post_quat.rotate key_rotation
  let quat := quat.rotate q.conjugated
  let loc := key_location.sub import_bone.orig_loc
  let loc := loc.rotate import_bone.post_quat.conjugated
  (quat.w, quat.x, quat.y, quat.z, loc.x, loc.y, loc.z)

/-! ## `psa/export/operators.py`: marker-based sequence ranges
(`get_timeline_marker_sequence_frame_ranges`, lines 136-174)

Host data: an `AnimData` with its NLA tracks (each a mute flag and a
strip list) and the scene's timeline markers.  Frame positions are
modelled as `Int` (the source truncates them with `int(...)` before
storing).  `context.scene.timeline_markers[marker_name]` returns the
first marker bearing that name, and `list.index` likewise returns the
first position of the name in the sorted name list. -/

structure NlaStrip where
  frame_start : Int
  frame_end : Int
deriving DecidableEq

structure NlaTrack where
  mute : Bool
  strips : List NlaStrip
deriving DecidableEq

structure AnimData where
  nla_tracks : List NlaTrack
deriving DecidableEq

structure TimelineMarker where
  name : String
  frame : Int
deriving DecidableEq

/-- Modelled from the spec: the helper `get_nla_strips_in_timeframe` lives
in the package's `helpers` module, which is not among the sources at
hand.  Per the spec (§4.3) it returns "any authored animation segments
overlapping `[frame_i, frame_{i+1}]`"; authored segments are the strips
of non-muted NLA tracks, and a strip overlaps the window when its frame
interval intersects it. -/
def get_nla_strips_in_timeframe (animation_data : AnimData) (frame_min frame_max : Int) :
    List NlaStrip :=
  (animation_data.nla_tracks.filter (fun track => !track.mute)).flatMap
    (fun track =>
      track.strips.filter (fun strip =>
        decide (strip.frame_start ≤ frame_max) && decide (frame_min ≤ strip.frame_end)))

/-- Insert a marker into a frame-sorted marker list, after all markers
with a strictly smaller frame and before those already present with the
same frame. -/
def insertMarkerByFrame (m : TimelineMarker) : List TimelineMarker → List TimelineMarker
  | [] => [m]
  | n :: rest =>
    if n.frame < m.frame then n :: insertMarkerByFrame m rest else m :: n :: rest

/-- Stable sort of the timeline markers by frame, modelling
`sorted(context.scene.timeline_markers, key=lambda x: x.frame)`. -/
def sortMarkersByFrame : List TimelineMarker → List TimelineMarker
  | [] => []
  | m :: rest => insertMarkerByFrame m (sortMarkersByFrame rest)

/-- The last-marker fallback of the range computation (lines 161-167):
starting from `frame_end = 0`, fold `max` over the `frame_end` of every
strip of every non-muted NLA track. -/
def finalNlaFrameEnd (animation_data : AnimData) : Int :=
  animation_data.nla_tracks.foldl
    (fun frame_end nla_track =>
      if nla_track.mute then frame_end
      else nla_track.strips.foldl (fun fe strip => max fe strip.frame_end) frame_end)
    0

/-- The `frame_end` values of all strips of non-muted tracks, used to
state what `finalNlaFrameEnd` computes. -/
def nonMutedStripEnds (animation_data : AnimData) : List Int :=
  ((animation_data.nla_tracks.filter (fun track => !track.mute)).flatMap NlaTrack.strips).map
    NlaStrip.frame_end

/-- The loop body of `get_timeline_marker_sequence_frame_ranges` for one
`marker_name`: the `(frame_start, frame_end)` pair stored into the
result dictionary, or `none` when the marker is dropped
(`frame_start > frame_end`).  A `marker_name` not naming any timeline
marker would raise a `KeyError` in the source; both callers only pass
names of existing markers, and that case is mapped to `none` here. -/
def computeMarkerRange (animation_data : AnimData) (timeline_markers : List TimelineMarker)
    (marker_name : String) : Option (Int × Int) :=
  let sorted_timeline_markers := sortMarkersByFrame timeline_markers
  let sorted_timeline_marker_names := sorted_timeline_markers.map TimelineMarker.name
  match timeline_markers.find? (fun m => m.name == marker_name) with
  | none => none
  | some marker =>
    let frame_start := marker.frame
    let marker_index := sorted_timeline_marker_names.indexOf marker_name
    let next_marker_index := marker_index + 1
    let (frame_start, frame_end) :=
      match sorted_timeline_markers.get? next_marker_index with
      | some next_marker =>
        let frame_end := next_marker.frame
        let nla_strips := get_nla_strips_in_timeframe animation_data marker.frame frame_end
        if nla_strips.length > 0 then
          (max frame_start (minOf (nla_strips.map NlaStrip.frame_start)),
            min frame_end (maxOf (nla_strips.map NlaStrip.frame_end)))
        else
          (frame_start, frame_start)
      | none => (frame_start, finalNlaFrameEnd animation_data)
    if frame_start > frame_end then none else some (frame_start, frame_end)

/-- Embedding of `get_timeline_marker_sequence_frame_ranges`: fold the
per-marker computation over `marker_names`, collecting the surviving
ranges into the insertion-ordered dictionary `sequence_frame_ranges`. -/
def get_timeline_marker_sequence_frame_ranges (animation_data : AnimData)
    (timeline_markers : List TimelineMarker) (marker_names : List String) :
    List (String × Int × Int) :=
  marker_names.foldl
    (fun sequence_frame_ranges marker_name =>
      match computeMarkerRange animation_data timeline_markers marker_name with
      | some r => dictInsert marker_name r sequence_frame_ranges
      | none => sequence_frame_ranges)
    []

/-! ## Helper lemmas about the Python `min`/`max` models -/

theorem foldl_min_le_init {α : Type} [LinearOrder α] :
    ∀ (l : List α) (a : α), l.foldl min a ≤ a
  | [], a => le_refl a
  | x :: xs, a => le_trans (foldl_min_le_init xs (min a x)) (min_le_left a x)

theorem foldl_min_le_mem {α : Type} [LinearOrder α] :
    ∀ (l : List α) (a x : α), x ∈ l → l.foldl min a ≤ x
  | y :: xs, a, x, h => by
    rcases List.mem_cons.mp h with h | h
    · subst h
      exact le_trans (foldl_min_le_init xs (min a x)) (min_le_right a x)
    · exact foldl_min_le_mem xs (min a y) x h

theorem foldl_min_mem {α : Type} [LinearOrder α] :
    ∀ (l : List α) (a : α), l.foldl min a = a ∨ l.foldl min a ∈ l
  | [], _ => Or.inl rfl
  | x :: xs, a => by
    rcases foldl_min_mem xs (min a x) with h | h
    · rcases min_choice a x with h2 | h2
      · exact Or.inl (by rw [List.foldl_cons, h, h2])
      · exact Or.inr (by rw [List.foldl_cons, h, h2]; exact List.mem_cons_self x xs)
    · exact Or.inr (List.mem_cons_of_mem x (by rw [List.foldl_cons]; exact h))

theorem init_le_foldl_max {α : Type} [LinearOrder α] :
    ∀ (l : List α) (a : α), a ≤ l.foldl max a
  | [], a => le_refl a
  | x :: xs, a => le_trans (le_max_left a x) (init_le_foldl_max xs (max a x))

theorem mem_le_foldl_max {α : Type} [LinearOrder α] :
    ∀ (l : List α) (a x : α), x ∈ l → x ≤ l.foldl max a
  | y :: xs, a, x, h => by
    rcases List.mem_cons.mp h with h | h
    · subst h
      exact le_trans (le_max_right a x) (init_le_foldl_max xs (max a x))
    · exact mem_le_foldl_max xs (max a y) x h

theorem foldl_max_mem {α : Type} [LinearOrder α] :
    ∀ (l : List α) (a : α), l.foldl max a = a ∨ l.foldl max a ∈ l
  | [], _ => Or.inl rfl
  | x :: xs, a => by
    rcases foldl_max_mem xs (max a x) with h | h
    · rcases max_choice a x with h2 | h2
      · exact Or.inl (by rw [List.foldl_cons, h, h2])
      · exact Or.inr (by rw [List.foldl_cons, h, h2]; exact List.mem_cons_self x xs)
    · exact Or.inr (List.mem_cons_of_mem x (by rw [List.foldl_cons]; exact h))

theorem minOf_mem {α : Type} [LinearOrder α] [Inhabited α] (l : List α) (h : l ≠ []) :
    minOf l ∈ l := by
  cases l with
  | nil => exact absurd rfl h
  | cons x xs =>
    rcases foldl_min_mem xs x with h2 | h2
    · rw [minOf, h2]; exact List.mem_cons_self x xs
    · exact List.mem_cons_of_mem x (by rw [minOf]; exact h2)

theorem minOf_le {α : Type} [LinearOrder α] [Inhabited α] (l : List α) (x : α) (hx : x ∈ l) :
    minOf l ≤ x := by
  cases l with
  | nil => cases hx
  | cons y xs =>
    rcases List.mem_cons.mp hx with h | h
    · subst h; exact foldl_min_le_init xs x
    · exact foldl_min_le_mem xs y x h

theorem maxOf_mem {α : Type} [LinearOrder α] [Inhabited α] (l : List α) (h : l ≠ []) :
    maxOf l ∈ l := by
  cases l with
  | nil => exact absurd rfl h
  | cons x xs =>
    rcases foldl_max_mem xs x with h2 | h2
    · rw [maxOf, h2]; exact List.mem_cons_self x xs
    · exact List.mem_cons_of_mem x (by rw [maxOf]; exact h2)

theorem le_maxOf {α : Type} [LinearOrder α] [Inhabited α] (l : List α) (x : α) (hx : x ∈ l) :
    x ≤ maxOf l := by
  cases l with
  | nil => cases hx
  | cons y xs =>
    rcases List.mem_cons.mp hx with h | h
    · subst h; exact init_le_foldl_max xs x
    · exact mem_le_foldl_max xs y x h

/-! ## C10: morph-data flag -/

/-- C10: for every Psk document, `has_morph_data` is true exactly when
`morph_infos` is non-empty, whatever `morph_data` holds; in particular a
document with empty `morph_infos` reports `has_morph_data = false`. -/
theorem has_morph_data_iff_morph_infos_ne_nil (psk : Psk) :
    (psk.has_morph_data = true ↔ psk.morph_infos ≠ []) ∧
      (psk.morph_infos = [] → psk.has_morph_data = false) := by
  constructor
  · simp [Psk.has_morph_data, List.length_pos]
  · intro h
    simp [Psk.has_morph_data, h]

/-- Witness for C10: a document with empty `morph_infos` and non-empty
`morph_data` reports `has_morph_data = false`. -/
theorem has_morph_data_iff_morph_infos_ne_nil_witness :
    ({ Psk.new with morph_data := [⟨⟨0, 0, 0⟩, ⟨0, 0, 0⟩, 0⟩] } : Psk).morph_infos = [] ∧
      ({ Psk.new with morph_data := [⟨⟨0, 0, 0⟩, ⟨0, 0, 0⟩, 0⟩] } : Psk).has_morph_data = false :=
  ⟨rfl, (has_morph_data_iff_morph_infos_ne_nil _).2 rfl⟩

/-! ## C3: concrete bone-mapping run -/

/-- C3: mapping the PSA bones `["Root", "Head", "head"]` case-insensitively
onto the armature bones `["Root", "Head"]` maps Root to 0 and Head to 1,
records exactly the one collision `(2, 1, 1)` (PSA bone 2 against armature
bone 1, already claimed by PSA bone 1), leaves `head` unmapped, and leaves
the missing-bone set empty; the mapping phase is a pure function, so equality
with this literal result is determinism at these inputs. -/
theorem bone_mapping_concrete_run :
    map_psa_bones_to_armature ["Root", "Head", "head"] ["Root", "Head"] "CASE_INSENSITIVE" =
      some { psa_to_armature_bone_indices := [(0, 0), (1, 1)]
             armature_to_psa_bone_indices := [(0, 0), (1, 1)]
             psa_bone_names := ["Root", "Head", "Head"]
             duplicate_mappings := [(2, 1, 1)] } ∧
      missing_bone_names
          { psa_to_armature_bone_indices := [(0, 0), (1, 1)]
            armature_to_psa_bone_indices := [(0, 0), (1, 1)]
            psa_bone_names := ["Root", "Head", "Head"]
            duplicate_mappings := [(2, 1, 1)] } ["Root", "Head"] = [] := by
  decide

/-! ## C2: the case-insensitive mapping bug -/

/-- C2 (failing input): PSA bone `head` matches armature bone 0 (`Head`)
case-insensitively and that target is unclaimed, yet the mapping phase
aborts (Python: `armature_bone_names.index('head')` raises `ValueError`)
instead of mapping PSA bone 0 to armature bone 0, because the source maps
through `armature_bone_names.index(psa_bone_name)` rather than the
already-computed `armature_bone_index`. -/
theorem bone_mapping_case_insensitive_value_error :
    _get_armature_bone_index_for_psa_bone "head" ["Head"] "CASE_INSENSITIVE" = some 0 ∧
      map_psa_bones_to_armature ["head"] ["Head"] "CASE_INSENSITIVE" = none := by
  decide

/-! ## C8: import with zero selected sequences -/

/-- C8: when no sequence is selected, `PSA_OT_import.execute` reports the
precondition error `No sequences selected`, returns `CANCELLED`, and never
invokes `import_psa` (the only code path that creates or modifies
actions). -/
theorem import_execute_no_sequences (sequence_list : List PsaSequenceListItem)
    (import_warnings : List String)
    (h : ∀ item ∈ sequence_list, item.is_selected = false) :
    (psa_import_execute sequence_list import_warnings).status = OperatorStatus.CANCELLED ∧
      ("ERROR_INVALID_CONTEXT", "No sequences selected") ∈
        (psa_import_execute sequence_list import_warnings).reports ∧
      (psa_import_execute sequence_list import_warnings).import_psa_invoked = false := by
  have hf : sequence_list.filter (fun x => x.is_selected) = [] := by
    rw [List.filter_eq_nil_iff]
    intro item hitem
    simp [h item hitem]
  simp [psa_import_execute, hf]

/-- Witness for C8 at a one-element, unselected sequence list. -/
theorem import_execute_no_sequences_witness :
    (∀ item ∈ [PsaSequenceListItem.mk "Run" false], item.is_selected = false) ∧
      (psa_import_execute [PsaSequenceListItem.mk "Run" false] []).status =
        OperatorStatus.CANCELLED :=
  ⟨by decide, (import_execute_no_sequences [PsaSequenceListItem.mk "Run" false] [] (by decide)).1⟩

/-! ## C9: first-match semantics of the bone-index scan -/

theorem _gabi_aux_cons (psa_bone_name bone_mapping_mode name : String) (rest : List String)
    (i : Nat) :
    _get_armature_bone_index_aux psa_bone_name bone_mapping_mode (name :: rest) i =
      if nameMatches bone_mapping_mode name psa_bone_name then some i
      else _get_armature_bone_index_aux psa_bone_name bone_mapping_mode rest (i + 1) := by
  by_cases hm : bone_mapping_mode = "CASE_INSENSITIVE" <;>
    simp [_get_armature_bone_index_aux, nameMatches, hm]

theorem _gabi_aux_some_iff (psa_bone_name bone_mapping_mode : String) :
    ∀ (l : List String) (i k : Nat),
      _get_armature_bone_index_aux psa_bone_name bone_mapping_mode l i = some k ↔
        ∃ j : Nat, ∃ hj : j < l.length, k = i + j ∧
          nameMatches bone_mapping_mode (l.get ⟨j, hj⟩) psa_bone_name ∧
          ∀ j2 : Nat, ∀ hj2 : j2 < l.length, j2 < j →
            ¬ nameMatches bone_mapping_mode (l.get ⟨j2, hj2⟩) psa_bone_name
  | [], i, k => by simp [_get_armature_bone_index_aux]
  | name :: rest, i, k => by
    rw [_gabi_aux_cons]
    by_cases hn : nameMatches bone_mapping_mode name psa_bone_name
    · rw [if_pos hn]
      constructor
      · intro h
        injection h with h
        exact ⟨0, by simp, by omega, by simpa using hn, by omega⟩
      · rintro ⟨j, hj, hk, hmj, hmin⟩
        cases j with
        | zero => subst hk; simp
        | succ j => exact absurd (by simpa using hn) (hmin 0 (by simp) (by omega))
    · rw [if_neg hn, _gabi_aux_some_iff psa_bone_name bone_mapping_mode rest (i + 1) k]
      constructor
      · rintro ⟨j, hj, hk, hmj, hmin⟩
        refine ⟨j + 1, by simp only [List.length_cons]; omega, by omega, by simpa using hmj, ?_⟩
        intro j2 hj2 hlt
        cases j2 with
        | zero => simpa using hn
        | succ j2 =>
          have := hmin j2 (by simp only [List.length_cons] at hj2; omega) (by omega)
          simpa using this
      · rintro ⟨j, hj, hk, hmj, hmin⟩
        cases j with
        | zero => exact absurd (by simpa using hmj) hn
        | succ j =>
          refine ⟨j, by simp only [List.length_cons] at hj; omega, by omega, by simpa using hmj, ?_⟩
          intro j2 hj2 hlt
          have := hmin (j2 + 1) (by simp only [List.length_cons]; omega) (by omega)
          simpa using this

theorem _gabi_aux_none_iff (psa_bone_name bone_mapping_mode : String) :
    ∀ (l : List String) (i : Nat),
      _get_armature_bone_index_aux psa_bone_name bone_mapping_mode l i = none ↔
        ∀ j : Nat, ∀ hj : j < l.length,
          ¬ nameMatches bone_mapping_mode (l.get ⟨j, hj⟩) psa_bone_name
  | [], i => by simp [_get_armature_bone_index_aux]
  | name :: rest, i => by
    rw [_gabi_aux_cons]
    by_cases hn : nameMatches bone_mapping_mode name psa_bone_name
    · rw [if_pos hn]
      constructor
      · intro h; cases h
      · intro hall
        exact absurd (by simpa using hn) (hall 0 (by simp))
    · rw [if_neg hn, _gabi_aux_none_iff psa_bone_name bone_mapping_mode rest (i + 1)]
      constructor
      · intro hall j hj
        cases j with
        | zero => simpa using hn
        | succ j => simpa using hall j (by simp only [List.length_cons] at hj; omega)
      · intro hall j hj
        have := hall (j + 1) (by simp only [List.length_cons]; omega)
        simpa using this

theorem _gabi_aux_default_mode (psa_bone_name bone_mapping_mode : String)
    (hm : bone_mapping_mode ≠ "CASE_INSENSITIVE") :
    ∀ (l : List String) (i : Nat),
      _get_armature_bone_index_aux psa_bone_name bone_mapping_mode l i =
        _get_armature_bone_index_aux psa_bone_name "EXACT" l i
  | [], _ => rfl
  | name :: rest, i => by
    rw [_gabi_aux_cons, _gabi_aux_cons]
    have hiff : nameMatches bone_mapping_mode name psa_bone_name ↔
        nameMatches "EXACT" name psa_bone_name := by
      simp [nameMatches, hm]
    by_cases hn : nameMatches "EXACT" name psa_bone_name
    · rw [if_pos (hiff.mpr hn), if_pos hn]
    · rw [if_neg (fun h => hn (hiff.mp h)), if_neg hn,
        _gabi_aux_default_mode psa_bone_name bone_mapping_mode hm rest (i + 1)]

/-- C9: the bone-index scan returns the smallest armature index whose name
matches the PSA bone name under the selected mode, returns `none` exactly
when no armature name matches, and treats every mode other than
`CASE_INSENSITIVE` (not only `EXACT`) as exact case-sensitive
comparison. -/
theorem bone_index_first_match_policy (psa_bone_name : String)
    (armature_bone_names : List String) (bone_mapping_mode : String) :
    (∀ k : Nat,
        _get_armature_bone_index_for_psa_bone psa_bone_name armature_bone_names
            bone_mapping_mode = some k ↔
          ∃ hk : k < armature_bone_names.length,
            nameMatches bone_mapping_mode (armature_bone_names.get ⟨k, hk⟩) psa_bone_name ∧
            ∀ j : Nat, ∀ hj : j < armature_bone_names.length, j < k →
              ¬ nameMatches bone_mapping_mode (armature_bone_names.get ⟨j, hj⟩) psa_bone_name) ∧
      (_get_armature_bone_index_for_psa_bone psa_bone_name armature_bone_names
          bone_mapping_mode = none ↔
        ∀ j : Nat, ∀ hj : j < armature_bone_names.length,
          ¬ nameMatches bone_mapping_mode (armature_bone_names.get ⟨j, hj⟩) psa_bone_name) ∧
      (bone_mapping_mode ≠ "CASE_INSENSITIVE" →
        _get_armature_bone_index_for_psa_bone psa_bone_name armature_bone_names
            bone_mapping_mode =
          _get_armature_bone_index_for_psa_bone psa_bone_name armature_bone_names "EXACT") := by
  refine ⟨?_, ?_, ?_⟩
  · intro k
    rw [_get_armature_bone_index_for_psa_bone,
      _gabi_aux_some_iff psa_bone_name bone_mapping_mode armature_bone_names 0 k]
    constructor
    · rintro ⟨j, hj, hk, hmj, hmin⟩
      have hjk : j = k := by omega
      subst hjk
      exact ⟨hj, hmj, hmin⟩
    · rintro ⟨hk, hmk, hmin⟩
      exact ⟨k, hk, by omega, hmk, hmin⟩
  · rw [_get_armature_bone_index_for_psa_bone,
      _gabi_aux_none_iff psa_bone_name bone_mapping_mode armature_bone_names 0]
  · intro hm
    rw [_get_armature_bone_index_for_psa_bone, _get_armature_bone_index_for_psa_bone,
      _gabi_aux_default_mode psa_bone_name bone_mapping_mode hm armature_bone_names 0]

/-- Witness for C9: an unrecognized mode string behaves exactly like
`EXACT`. -/
theorem bone_index_first_match_policy_witness :
    _get_armature_bone_index_for_psa_bone "b" ["a", "B"] "UNKNOWN_MODE" =
      _get_armature_bone_index_for_psa_bone "b" ["a", "B"] "EXACT" :=
  (bone_index_first_match_policy "b" ["a", "B"] "UNKNOWN_MODE").2.2 (by decide)

/-! ## C7: sample-rate resolution -/

/-- C7: `get_sequence_fps` is a pure function of the source selector and
its inputs: `SCENE` returns the project rate, `CUSTOM` the explicit
override, and `ACTION_METADATA` the minimum of the numeric
`psa_sequence_fps` metadata values of the contributing actions, falling
back to the project rate when no contributing action carries a numeric
value. -/
theorem sequence_fps_resolution (scene_fps fps_custom : ℚ) (fps_source : String)
    (actions : List FpsAction) :
    (fps_source = "SCENE" →
        get_sequence_fps scene_fps fps_source fps_custom actions = .ok scene_fps) ∧
      (fps_source = "CUSTOM" →
        get_sequence_fps scene_fps fps_source fps_custom actions = .ok fps_custom) ∧
      (fps_source = "ACTION_METADATA" →
        (action_metadata_fps_list actions = [] →
          get_sequence_fps scene_fps fps_source fps_custom actions = .ok scene_fps) ∧
        (action_metadata_fps_list actions ≠ [] →
          ∃ fps : ℚ, get_sequence_fps scene_fps fps_source fps_custom actions = .ok fps ∧
            fps ∈ action_metadata_fps_list actions ∧
            ∀ x ∈ action_metadata_fps_list actions, fps ≤ x)) := by
  refine ⟨?_, ?_, ?_⟩
  · intro h
    subst h
    simp [get_sequence_fps]
  · intro h
    subst h
    simp [get_sequence_fps]
  · intro h
    subst h
    constructor
    · intro hemp
      simp [get_sequence_fps, hemp]
    · intro hne
      refine ⟨minOf (action_metadata_fps_list actions), ?_, minOf_mem _ hne, fun x hx => minOf_le _ x hx⟩
      have hlen : action_metadata_fps_list actions ≠ [] := hne
      simp only [get_sequence_fps]
      rw [if_neg (by decide), if_neg (by decide), if_pos trivial, if_pos]
      exact List.length_pos.mpr hlen

/-- Witness for C7: a `SCENE` selector returns the scene rate. -/
theorem sequence_fps_resolution_witness :
    get_sequence_fps 30 "SCENE" 60 [] = Except.ok 30 :=
  (sequence_fps_resolution 30 60 "SCENE" []).1 rfl

/-! ## C6: reversed-name splitting of named segments -/

theorem lastEligibleSlashAux_no_slash :
    ∀ (p : List Char) (i : Nat), '/' ∉ p → lastEligibleSlashAux p i = none
  | [], _, _ => rfl
  | c :: rest, i, h => by
    have hc : ¬(c = '/') := by
      intro hc
      exact h (by simp [hc])
    have hrest : lastEligibleSlashAux rest (i + 1) = none :=
      lastEligibleSlashAux_no_slash rest (i + 1) (fun hm => h (List.mem_cons_of_mem c hm))
    simp only [lastEligibleSlashAux, hrest]
    rw [if_neg]
    intro hcond
    exact hc hcond.1

theorem lastEligibleSlashAux_split :
    ∀ (A : List Char) (i : Nat) (B : List Char), '/' ∉ B → B ≠ [] → 1 ≤ i + A.length →
      lastEligibleSlashAux (A ++ '/' :: B) i = some (i + A.length)
  | [], i, B, hB, hBne, hi => by
    have hrest : lastEligibleSlashAux B (i + 1) = none :=
      lastEligibleSlashAux_no_slash B (i + 1) hB
    simp only [List.nil_append, lastEligibleSlashAux, hrest]
    rw [if_pos ⟨trivial, by simpa using hi, hBne⟩]
    simp
  | a :: A, i, B, hB, hBne, _ => by
    have hrec := lastEligibleSlashAux_split A (i + 1) B hB hBne (by omega)
    simp only [List.cons_append, List.append_eq, lastEligibleSlashAux, hrec]
    exact congrArg some (by simp only [List.length_cons]; omega)


theorem matchReversedName_split (A B : String) (hA : A ≠ "") (hB : B ≠ "")
    (hBs : '/' ∉ B.data) (hAn : '\n' ∉ A.data) (hBn : '\n' ∉ B.data) :
    matchReversedName (A ++ "/" ++ B) = some (A, B) := by
  have hAd : A.data ≠ [] := by
    intro h
    apply hA
    cases A
    simp only at h
    simp [h]
  have hBd : B.data ≠ [] := by
    intro h
    apply hB
    cases B
    simp only at h
    simp [h]
  have hdata : (A ++ "/" ++ B).data = A.data ++ '/' :: B.data := by
    simp [String.data_append]
  have htake : ((A ++ "/" ++ B).data).takeWhile (fun c => decide (c ≠ '\n')) =
      A.data ++ '/' :: B.data := by
    rw [hdata, List.takeWhile_eq_self_iff]
    intro x hx
    simp only [decide_eq_true_eq]
    rcases List.mem_append.mp hx with h | h
    · exact fun hxe => hAn (hxe ▸ h)
    · rcases List.mem_cons.mp h with h | h
      · subst h; decide
      · exact fun hxe => hBn (hxe ▸ h)
  have hlen1 : 1 ≤ 0 + A.data.length := by
    cases hd : A.data with
    | nil => exact absurd hd hAd
    | cons c cs => simp [hd]
  have hslash : lastEligibleSlash (A.data ++ '/' :: B.data) = some A.data.length := by
    rw [lastEligibleSlash]
    simpa using lastEligibleSlashAux_split A.data 0 B.data hBs hBd hlen1
  have htakeA : (A.data ++ '/' :: B.data).take A.data.length = A.data := List.take_left _ _
  have hdropB : (A.data ++ '/' :: B.data).drop (A.data.length + 1) = B.data := by
    have : A.data ++ '/' :: B.data = (A.data ++ ['/']) ++ B.data := by simp
    rw [this]
    have hlen : (A.data ++ ['/']).length = A.data.length + 1 := by simp
    rw [← hlen, List.drop_left]
  simp only [matchReversedName, String.toList, htake, hslash, htakeA, hdropB]

theorem matchReversedName_no_slash (name : String) (h : '/' ∉ name.data) :
    matchReversedName name = none := by
  have hsub : '/' ∉ name.data.takeWhile (fun c => decide (c ≠ '\n')) := by
    intro hm
    exact h ((List.takeWhile_sublist _).subset hm)
  simp only [matchReversedName, String.toList, lastEligibleSlash,
    lastEligibleSlashAux_no_slash _ 0 hsub]

/-- C6: a segment name of the form `A/B` (a single `/`, both parts
non-empty, no newline characters) makes both `get_sequences_from_action`
and `get_sequences_from_action_pose_marker` emit exactly the two
sequences `(A, frame_start, frame_end)` and `(B, frame_end, frame_start)`
over the segment's frame range, and a name without any `/` emits exactly
the one sequence `(name, frame_start, frame_end)`. -/
theorem reversed_name_sequence_split (A B : String) (action : BlenderAction)
    (pose_markers : List PoseMarker) (pose_marker : PoseMarker) (pose_marker_index : Nat) :
    (action.name = A ++ "/" ++ B → A ≠ "" → B ≠ "" → '/' ∉ A.data → '/' ∉ B.data →
      '\n' ∉ A.data → '\n' ∉ B.data →
      get_sequences_from_action action =
        [(A, action.frame_range.1, action.frame_range.2),
          (B, action.frame_range.2, action.frame_range.1)]) ∧
      (∀ frame_end : Int,
        pose_marker.name = A ++ "/" ++ B → A ≠ "" → B ≠ "" → '/' ∉ A.data → '/' ∉ B.data →
        '\n' ∉ A.data → '\n' ∉ B.data →
        (match pose_markers.get? (pose_marker_index + 1) with
          | some next_marker => next_marker.frame
          | none => action.frame_range.2) = frame_end →
        get_sequences_from_action_pose_marker action pose_markers pose_marker
            pose_marker_index =
          [(A, pose_marker.frame, frame_end), (B, frame_end, pose_marker.frame)]) ∧
      ('/' ∉ action.name.data →
        get_sequences_from_action action =
          [(action.name, action.frame_range.1, action.frame_range.2)]) ∧
      ('/' ∉ pose_marker.name.data → ∀ frame_end : Int,
        (match pose_markers.get? (pose_marker_index + 1) with
          | some next_marker => next_marker.frame
          | none => action.frame_range.2) = frame_end →
        get_sequences_from_action_pose_marker action pose_markers pose_marker
            pose_marker_index =
          [(pose_marker.name, pose_marker.frame, frame_end)]) := by
  refine ⟨?_, ?_, ?_, ?_⟩
  · intro hname hA hB hAs hBs hAn hBn
    simp only [get_sequences_from_action, hname,
      matchReversedName_split A B hA hB hBs hAn hBn]
  · intro frame_end hname hA hB hAs hBs hAn hBn hfe
    simp only [get_sequences_from_action_pose_marker, hname, hfe,
      matchReversedName_split A B hA hB hBs hAn hBn]
  · intro hs
    simp only [get_sequences_from_action, matchReversedName_no_slash _ hs]
  · intro hs frame_end hfe
    simp only [get_sequences_from_action_pose_marker, hfe,
      matchReversedName_no_slash _ hs]

/-- C6 (counterexample): the claim quantifies over every name containing a
`/` with non-empty parts, but the source regex `(.+)/(.+)` cannot match a
newline: the name consisting of a newline, `/`, `x` decomposes as claimed
with both parts non-empty, yet only a single unsplit sequence is
emitted. -/
theorem reversed_name_sequence_split_counterexample :
    ("\n/x" : String) = "\n" ++ "/" ++ "x" ∧ ("\n" : String) ≠ "" ∧ ("x" : String) ≠ "" ∧
      get_sequences_from_action { name := "\n/x", frame_range := (0, 30) } =
        [("\n/x", 0, 30)] ∧
      get_sequences_from_action { name := "\n/x", frame_range := (0, 30) } ≠
        [("\n", 0, 30), ("x", 30, 0)] := by
  refine ⟨rfl, by decide, by decide, ?_, ?_⟩ <;> decide

/-- Witness for C6 at the spec's own example: `Run/RunBack` over frames 0
to 30. -/
theorem reversed_name_sequence_split_witness :
    get_sequences_from_action { name := "Run/RunBack", frame_range := (0, 30) } =
      [("Run", 0, 30), ("RunBack", 30, 0)] :=
  (reversed_name_sequence_split "Run" "RunBack"
      { name := "Run/RunBack", frame_range := (0, 30) } [] { name := "Run/RunBack", frame := 0 }
      0).1 rfl (by decide) (by decide) (by decide) (by decide) (by decide) (by decide)

/-! ## C1: bind-pose sample of a child bone converts to the identity -/

theorem qmul_conjugated_self (q : MQuaternion) :
    qmul q q.conjugated = { w := qnormSq q, x := 0, y := 0, z := 0 } := by
  cases q
  simp only [qmul, MQuaternion.conjugated, qnormSq, MQuaternion.mk.injEq]
  refine ⟨by ring, by ring, by ring, by ring⟩

/-- C1: for a non-root import bone whose `post_quat` is the conjugate of
its (unit) bind-pose rotation `orig_quat`, converting the sample equal to
the bind pose (`key_rotation = orig_quat`, `key_location = orig_loc`)
yields exactly the identity rotation `(1, 0, 0, 0)` and the zero
translation. -/
theorem child_bind_pose_sample_is_identity (b : ImportBone)
    (hp : b.parent ≠ none) (hpost : b.post_quat = b.orig_quat.conjugated)
    (hunit : qnormSq b.orig_quat = 1) :
    _calculate_fcurve_data b b.orig_quat b.orig_loc = (1, 0, 0, 0, 0, 0, 0) := by
  cases b with
  | mk p oloc oquat pquat =>
    simp only [ImportBone.parent] at hp
    simp only [ImportBone.post_quat, ImportBone.orig_quat] at hpost
    simp only [ImportBone.orig_quat, qnormSq] at hunit
    subst hpost
    cases p with
    | none => exact absurd rfl hp
    | some par =>
      obtain ⟨ow, ox, oy, oz⟩ := oquat
      obtain ⟨lx, ly, lz⟩ := oloc
      simp only [_calculate_fcurve_data, ImportBone.parent, ImportBone.orig_loc,
        ImportBone.orig_quat, ImportBone.post_quat, MQuaternion.rotate,
        MQuaternion.conjugated, MVector.rotate, MVector.sub, qmul, Option.isNone,
        Bool.false_eq_true, if_false, Prod.mk.injEq]
      refine ⟨?_, by ring, by ring, by ring, by ring, by ring, by ring⟩
      ring_nf
      ring_nf at hunit
      nlinarith [hunit]

/-- Witness for C1: a concrete child bone (parent present) with unit
bind-pose rotation `(0, 1, 0, 0)` and `post_quat` its conjugate. -/
theorem child_bind_pose_sample_is_identity_witness :
    ((ImportBone.mk (some (ImportBone.mk none ⟨0, 0, 0⟩ ⟨1, 0, 0, 0⟩ ⟨1, 0, 0, 0⟩))
        ⟨1, 2, 3⟩ ⟨0, 1, 0, 0⟩ ⟨0, -1, 0, 0⟩).parent ≠ none) ∧
      ((ImportBone.mk (some (ImportBone.mk none ⟨0, 0, 0⟩ ⟨1, 0, 0, 0⟩ ⟨1, 0, 0, 0⟩))
          ⟨1, 2, 3⟩ ⟨0, 1, 0, 0⟩ ⟨0, -1, 0, 0⟩).post_quat =
        MQuaternion.conjugated ⟨0, 1, 0, 0⟩) ∧
      qnormSq ⟨0, 1, 0, 0⟩ = 1 ∧
      _calculate_fcurve_data
          (ImportBone.mk (some (ImportBone.mk none ⟨0, 0, 0⟩ ⟨1, 0, 0, 0⟩ ⟨1, 0, 0, 0⟩))
            ⟨1, 2, 3⟩ ⟨0, 1, 0, 0⟩ ⟨0, -1, 0, 0⟩)
          ⟨0, 1, 0, 0⟩ ⟨1, 2, 3⟩ = (1, 0, 0, 0, 0, 0, 0) := by
  refine ⟨by simp [ImportBone.parent], by decide, by norm_num [qnormSq], ?_⟩
  exact child_bind_pose_sample_is_identity
    (ImportBone.mk (some (ImportBone.mk none ⟨0, 0, 0⟩ ⟨1, 0, 0, 0⟩ ⟨1, 0, 0, 0⟩))
      ⟨1, 2, 3⟩ ⟨0, 1, 0, 0⟩ ⟨0, -1, 0, 0⟩)
    (by simp [ImportBone.parent]) (by decide) (by norm_num [qnormSq, ImportBone.orig_quat])

/-! ## C4: marker-derived ranges for markers at 0, 30, 60 -/

/-- C4 (counterexample): with markers at frames 0, 30, 60 and no authored
segments at all (an unconstrained input under the claim), the derivation
emits the single-frame ranges `(0, 0)` and `(30, 30)` and drops the last
marker entirely, not `(0, 30)`, `(30, 60)`, `(60, maxSegmentEnd)`. -/
theorem marker_ranges_0_30_60_counterexample :
    get_timeline_marker_sequence_frame_ranges ⟨[]⟩
        [⟨"A", 0⟩, ⟨"B", 30⟩, ⟨"C", 60⟩] ["A", "B", "C"] =
      [("A", 0, 0), ("B", 30, 30)] ∧
      (get_timeline_marker_sequence_frame_ranges ⟨[]⟩
          [⟨"A", 0⟩, ⟨"B", 30⟩, ⟨"C", 60⟩] ["A", "B", "C"]).lookup "A" ≠ some (0, 30) ∧
      (get_timeline_marker_sequence_frame_ranges ⟨[]⟩
          [⟨"A", 0⟩, ⟨"B", 30⟩, ⟨"C", 60⟩] ["A", "B", "C"]).lookup "C" = none := by
  decide

/-- C4 (amended): markers at frames 0, 30, 60 yield exactly the ranges
`(0, 30)`, `(30, 60)` and `(60, maxSegmentEnd)` provided the non-muted
authored segments span the marker windows — here a single non-muted strip
from `s ≤ 0` to `e ≥ 60`, whose end is the maximum segment end; with no
overlapping segments the windows degenerate to single-frame ranges and
the last marker is dropped instead. -/
theorem marker_ranges_0_30_60 (s e : Int) (hs : s ≤ 0) (he : 60 ≤ e) :
    get_timeline_marker_sequence_frame_ranges ⟨[⟨false, [⟨s, e⟩]⟩]⟩
        [⟨"A", 0⟩, ⟨"B", 30⟩, ⟨"C", 60⟩] ["A", "B", "C"] =
      [("A", 0, 30), ("B", 30, 60), ("C", 60, e)] ∧
      finalNlaFrameEnd ⟨[⟨false, [⟨s, e⟩]⟩]⟩ = e := by
  have hfin : finalNlaFrameEnd ⟨[⟨false, [⟨s, e⟩]⟩]⟩ = e := by
    simp [finalNlaFrameEnd]
    omega
  have hA : computeMarkerRange ⟨[⟨false, [⟨s, e⟩]⟩]⟩ [⟨"A", 0⟩, ⟨"B", 30⟩, ⟨"C", 60⟩] "A" =
      some (0, 30) := by
    have hstrips : get_nla_strips_in_timeframe ⟨[⟨false, [⟨s, e⟩]⟩]⟩ 0 30 = [⟨s, e⟩] := by
      simp [get_nla_strips_in_timeframe]; omega
    simp [computeMarkerRange, sortMarkersByFrame, insertMarkerByFrame, hstrips, maxOf, minOf]
    omega
  have hB : computeMarkerRange ⟨[⟨false, [⟨s, e⟩]⟩]⟩ [⟨"A", 0⟩, ⟨"B", 30⟩, ⟨"C", 60⟩] "B" =
      some (30, 60) := by
    have hstrips : get_nla_strips_in_timeframe ⟨[⟨false, [⟨s, e⟩]⟩]⟩ 30 60 = [⟨s, e⟩] := by
      simp [get_nla_strips_in_timeframe]; omega
    simp [computeMarkerRange, sortMarkersByFrame, insertMarkerByFrame, hstrips, maxOf, minOf]
    omega
  have hC : computeMarkerRange ⟨[⟨false, [⟨s, e⟩]⟩]⟩ [⟨"A", 0⟩, ⟨"B", 30⟩, ⟨"C", 60⟩] "C" =
      some (60, e) := by
    simp [computeMarkerRange, sortMarkersByFrame, insertMarkerByFrame, hfin]
    omega
  refine ⟨?_, hfin⟩
  simp [get_timeline_marker_sequence_frame_ranges, hA, hB, hC, dictInsert]

/-- Witness for the amended C4 at the concrete strip `[0, 90]`. -/
theorem marker_ranges_0_30_60_witness :
    (0 : Int) ≤ 0 ∧ (60 : Int) ≤ 90 ∧
      get_timeline_marker_sequence_frame_ranges ⟨[⟨false, [⟨0, 90⟩]⟩]⟩
          [⟨"A", 0⟩, ⟨"B", 30⟩, ⟨"C", 60⟩] ["A", "B", "C"] =
        [("A", 0, 30), ("B", 30, 60), ("C", 60, 90)] :=
  ⟨by omega, by omega, (marker_ranges_0_30_60 0 90 (by omega) (by omega)).1⟩

/-! ## C5: general properties of marker-derived ranges -/

theorem lookup_dictInsert {β : Type} (k k2 : String) (v : β) :
    ∀ l : List (String × β),
      (dictInsert k v l).lookup k2 = if k2 = k then some v else l.lookup k2
  | [] => by
    by_cases h : k2 = k
    · have hb : (k2 == k) = true := by simpa using h
      simp [dictInsert, List.lookup, hb, h]
    · have hb : (k2 == k) = false := by simpa using h
      simp [dictInsert, List.lookup, hb, h]
  | (k0, v0) :: rest => by
    by_cases h0 : k0 = k
    · subst h0
      by_cases h : k2 = k0
      · have hb : (k2 == k0) = true := by simpa using h
        simp [dictInsert, List.lookup, hb, h]
      · have hb : (k2 == k0) = false := by simpa using h
        simp [dictInsert, List.lookup, hb, h]
    · have hrec := lookup_dictInsert k k2 v rest
      by_cases h : k2 = k0
      · subst h
        have hb : (k2 == k2) = true := by simp
        simp [dictInsert, h0, List.lookup, hb]
      · have hb : (k2 == k0) = false := by simpa using h
        simp [dictInsert, h0, List.lookup, hb, hrec]

theorem lookup_marker_ranges_fold (animation_data : AnimData)
    (timeline_markers : List TimelineMarker) :
    ∀ (marker_names : List String) (init : List (String × Int × Int)) (k : String),
      (marker_names.foldl
          (fun sequence_frame_ranges marker_name =>
            match computeMarkerRange animation_data timeline_markers marker_name with
            | some r => dictInsert marker_name r sequence_frame_ranges
            | none => sequence_frame_ranges)
          init).lookup k =
        if k ∈ marker_names then
          match computeMarkerRange animation_data timeline_markers k with
          | some r => some r
          | none => init.lookup k
        else init.lookup k
  | [], init, k => by simp
  | n :: ns, init, k => by
    rw [List.foldl_cons, lookup_marker_ranges_fold animation_data timeline_markers ns _ k]
    by_cases hk : k ∈ ns
    · rw [if_pos hk, if_pos (List.mem_cons_of_mem n hk)]
      cases hck : computeMarkerRange animation_data timeline_markers k with
      | some r => rfl
      | none =>
        by_cases hkn : k = n
        · subst hkn
          rw [hck]
        · cases hcn : computeMarkerRange animation_data timeline_markers n with
          | some r => rw [lookup_dictInsert, if_neg hkn]
          | none => rfl
    · rw [if_neg hk]
      by_cases hkn : k = n
      · subst hkn
        rw [if_pos (List.mem_cons_self k ns)]
        cases hck : computeMarkerRange animation_data timeline_markers k with
        | some r => rw [lookup_dictInsert, if_pos rfl]
        | none => rfl
      · rw [if_neg (by simp [hkn, hk])]
        cases hcn : computeMarkerRange animation_data timeline_markers n with
        | some r => rw [lookup_dictInsert, if_neg hkn]
        | none => rfl

/-- Every surviving entry of the range dictionary is the per-marker value
computed for its key. -/
theorem lookup_sequence_frame_ranges (animation_data : AnimData)
    (timeline_markers : List TimelineMarker) (marker_names : List String) (k : String) :
    (get_timeline_marker_sequence_frame_ranges animation_data timeline_markers
        marker_names).lookup k =
      if k ∈ marker_names then computeMarkerRange animation_data timeline_markers k
      else none := by
  rw [get_timeline_marker_sequence_frame_ranges,
    lookup_marker_ranges_fold animation_data timeline_markers marker_names [] k]
  by_cases hk : k ∈ marker_names
  · rw [if_pos hk, if_pos hk]
    cases computeMarkerRange animation_data timeline_markers k <;> rfl
  · rw [if_neg hk, if_neg hk]
    rfl

/-- A per-marker range that survives the final guard satisfies
`frame_start ≤ frame_end`. -/
theorem computeMarkerRange_le (animation_data : AnimData)
    (timeline_markers : List TimelineMarker) (marker_name : String) (s e : Int)
    (h : computeMarkerRange animation_data timeline_markers marker_name = some (s, e)) :
    s ≤ e := by
  rw [computeMarkerRange] at h
  split at h
  · cases h
  · simp only at h
    split at h
    · cases h
    · rw [Option.some_inj] at h
      rw [Prod.ext_iff] at h
      simp only at h
      omega

theorem insertMarkerByFrame_perm (m : TimelineMarker) :
    ∀ l : List TimelineMarker, (insertMarkerByFrame m l).Perm (m :: l)
  | [] => List.Perm.refl _
  | n :: rest => by
    rw [insertMarkerByFrame]
    split
    · exact ((insertMarkerByFrame_perm m rest).cons n).trans (List.Perm.swap m n rest)
    · exact List.Perm.refl _

theorem sortMarkersByFrame_perm : ∀ l : List TimelineMarker, (sortMarkersByFrame l).Perm l
  | [] => List.Perm.refl _
  | m :: rest =>
    (insertMarkerByFrame_perm m (sortMarkersByFrame rest)).trans
      ((sortMarkersByFrame_perm rest).cons m)

/-- With pairwise-distinct marker names, the name lookup
`timeline_markers[marker.name]` finds the marker itself. -/
theorem find?_marker_name_of_nodup :
    ∀ (l : List TimelineMarker), (l.map TimelineMarker.name).Nodup →
      ∀ m : TimelineMarker, m ∈ l → l.find? (fun x => x.name == m.name) = some m
  | [], _, m, hm => absurd hm (List.not_mem_nil m)
  | a :: l, hnd, m, hm => by
    rcases List.mem_cons.mp hm with h | h
    · subst h
      exact List.find?_cons_of_pos _ (by simp)
    · have hne : (a.name == m.name) = false := by
        simp only [List.map_cons, List.nodup_cons] at hnd
        have : m.name ∈ l.map TimelineMarker.name := List.mem_map_of_mem _ h
        simp only [beq_eq_false_iff_ne, ne_eq]
        intro he
        exact hnd.1 (he ▸ this)
      rw [List.find?_cons_of_neg _ (by simp [hne])]
      exact find?_marker_name_of_nodup l (by
        simp only [List.map_cons, List.nodup_cons] at hnd
        exact hnd.2) m h

theorem sorted_names_nodup (timeline_markers : List TimelineMarker)
    (hnd : (timeline_markers.map TimelineMarker.name).Nodup) :
    ((sortMarkersByFrame timeline_markers).map TimelineMarker.name).Nodup :=
  (((sortMarkersByFrame_perm timeline_markers).map TimelineMarker.name).nodup_iff).mpr hnd

theorem indexOf_sorted_name (timeline_markers : List TimelineMarker)
    (hnd : (timeline_markers.map TimelineMarker.name).Nodup) (i : Nat)
    (hi : i < (sortMarkersByFrame timeline_markers).length) :
    List.indexOf ((sortMarkersByFrame timeline_markers).get ⟨i, hi⟩).name
        ((sortMarkersByFrame timeline_markers).map TimelineMarker.name) = i := by
  have h1 : i < ((sortMarkersByFrame timeline_markers).map TimelineMarker.name).length := by
    simpa using hi
  have h2 := List.indexOf_getElem (sorted_names_nodup timeline_markers hnd) i h1
  simpa using h2

/-- Evaluation of the per-marker computation at the `i`-th sorted marker
when a next marker exists and no strips overlap the window: the range
degenerates to the marker's own frame. -/
theorem computeMarkerRange_no_strips (animation_data : AnimData)
    (timeline_markers : List TimelineMarker)
    (hnd : (timeline_markers.map TimelineMarker.name).Nodup)
    (i : Nat) (hi1 : i < (sortMarkersByFrame timeline_markers).length)
    (hi2 : i + 1 < (sortMarkersByFrame timeline_markers).length)
    (hstrips : get_nla_strips_in_timeframe animation_data
        ((sortMarkersByFrame timeline_markers).get ⟨i, hi1⟩).frame
        ((sortMarkersByFrame timeline_markers).get ⟨i + 1, hi2⟩).frame = []) :
    computeMarkerRange animation_data timeline_markers
        ((sortMarkersByFrame timeline_markers).get ⟨i, hi1⟩).name =
      some (((sortMarkersByFrame timeline_markers).get ⟨i, hi1⟩).frame,
        ((sortMarkersByFrame timeline_markers).get ⟨i, hi1⟩).frame) := by
  have hmem : (sortMarkersByFrame timeline_markers).get ⟨i, hi1⟩ ∈ timeline_markers :=
    (sortMarkersByFrame_perm timeline_markers).mem_iff.mp (List.get_mem _ _ _)
  have hfind := find?_marker_name_of_nodup timeline_markers hnd _ hmem
  have hidx := indexOf_sorted_name timeline_markers hnd i hi1
  have hget : (sortMarkersByFrame timeline_markers).get? (i + 1) =
      some ((sortMarkersByFrame timeline_markers).get ⟨i + 1, hi2⟩) :=
    List.get?_eq_get hi2
  simp only [List.get_eq_getElem] at hfind hidx hstrips
  simp only [List.get?_eq_getElem?] at hget
  simp [computeMarkerRange, hfind, hidx, hget, hstrips]

/-- Evaluation of the per-marker computation at the last sorted marker:
`frame_end` is the fold of `max` over every non-muted strip end, and the
marker is dropped when its own frame exceeds that value. -/
theorem computeMarkerRange_last (animation_data : AnimData)
    (timeline_markers : List TimelineMarker)
    (hnd : (timeline_markers.map TimelineMarker.name).Nodup)
    (i : Nat) (hi : i < (sortMarkersByFrame timeline_markers).length)
    (hlast : i + 1 = (sortMarkersByFrame timeline_markers).length) :
    computeMarkerRange animation_data timeline_markers
        ((sortMarkersByFrame timeline_markers).get ⟨i, hi⟩).name =
      if ((sortMarkersByFrame timeline_markers).get ⟨i, hi⟩).frame >
          finalNlaFrameEnd animation_data then none
      else
        some (((sortMarkersByFrame timeline_markers).get ⟨i, hi⟩).frame,
          finalNlaFrameEnd animation_data) := by
  have hmem : (sortMarkersByFrame timeline_markers).get ⟨i, hi⟩ ∈ timeline_markers :=
    (sortMarkersByFrame_perm timeline_markers).mem_iff.mp (List.get_mem _ _ _)
  have hfind := find?_marker_name_of_nodup timeline_markers hnd _ hmem
  have hidx := indexOf_sorted_name timeline_markers hnd i hi
  have hget : (sortMarkersByFrame timeline_markers).get? (i + 1) = none :=
    List.get?_eq_none.mpr (by omega)
  simp only [List.get_eq_getElem] at hfind hidx
  simp only [List.get?_eq_getElem?] at hget
  simp [computeMarkerRange, hfind, hidx, hget]

theorem finalNlaFrameEnd_fold :
    ∀ (tracks : List NlaTrack) (init : Int),
      tracks.foldl
          (fun frame_end nla_track =>
            if nla_track.mute then frame_end
            else nla_track.strips.foldl (fun fe strip => max fe strip.frame_end) frame_end)
          init =
        (((tracks.filter (fun track => !track.mute)).flatMap NlaTrack.strips).map
            NlaStrip.frame_end).foldl max init
  | [], init => rfl
  | t :: ts, init => by
    by_cases hm : t.mute
    · simp [hm, finalNlaFrameEnd_fold ts]
    · have hinner : t.strips.foldl (fun fe strip => max fe strip.frame_end) init =
          (t.strips.map NlaStrip.frame_end).foldl max init := by
        rw [List.foldl_map]
    
      simp [hm, finalNlaFrameEnd_fold ts, hinner, List.foldl_append]

/-- `finalNlaFrameEnd` folds `max` from 0 over the ends of all strips of
non-muted tracks. -/
theorem finalNlaFrameEnd_eq (animation_data : AnimData) :
    finalNlaFrameEnd animation_data = (nonMutedStripEnds animation_data).foldl max 0 := by
  rw [finalNlaFrameEnd, nonMutedStripEnds, finalNlaFrameEnd_fold]

theorem foldl_max_zero_spec (l : List Int) (hne : l ≠ []) (hnn : ∀ x ∈ l, 0 ≤ x) :
    l.foldl max 0 ∈ l ∧ ∀ x ∈ l, x ≤ l.foldl max 0 := by
  refine ⟨?_, fun x hx => mem_le_foldl_max l 0 x hx⟩
  rcases foldl_max_mem l 0 with h | h
  · cases l with
    | nil => exact absurd rfl hne
    | cons y ys =>
      have hy := mem_le_foldl_max (y :: ys) 0 y (List.mem_cons_self y ys)
      have h0 := hnn y (List.mem_cons_self y ys)
      rw [h] at hy
      have hy0 : y = 0 := le_antisymm hy h0
      rw [h, ← hy0]
      exact List.mem_cons_self y ys
  · exact h

/-- C5: over a marker set with pairwise-distinct names, processed as both
callers do by passing every marker's name: a marker with a next marker
whose window contains no overlapping strips emits the single-frame range
`(frame, frame)`; the last marker's emitted `frame_end` is the maximum
strip end over all strips of non-muted tracks (whenever such strips exist
and end at non-negative frames, matching the source's 0-seeded fold); and
every emitted range satisfies `frame_start ≤ frame_end`. -/
theorem marker_range_window_properties (animation_data : AnimData)
    (timeline_markers : List TimelineMarker)
    (hnd : (timeline_markers.map TimelineMarker.name).Nodup) :
    (∀ (i : Nat) (hi1 : i < (sortMarkersByFrame timeline_markers).length)
        (hi2 : i + 1 < (sortMarkersByFrame timeline_markers).length),
      get_nla_strips_in_timeframe animation_data
          ((sortMarkersByFrame timeline_markers).get ⟨i, hi1⟩).frame
          ((sortMarkersByFrame timeline_markers).get ⟨i + 1, hi2⟩).frame = [] →
      (get_timeline_marker_sequence_frame_ranges animation_data timeline_markers
            (timeline_markers.map TimelineMarker.name)).lookup
          ((sortMarkersByFrame timeline_markers).get ⟨i, hi1⟩).name =
        some (((sortMarkersByFrame timeline_markers).get ⟨i, hi1⟩).frame,
          ((sortMarkersByFrame timeline_markers).get ⟨i, hi1⟩).frame)) ∧
      (∀ (i : Nat) (hi : i < (sortMarkersByFrame timeline_markers).length),
        i + 1 = (sortMarkersByFrame timeline_markers).length →
        ∀ s e : Int,
          (get_timeline_marker_sequence_frame_ranges animation_data timeline_markers
                (timeline_markers.map TimelineMarker.name)).lookup
              ((sortMarkersByFrame timeline_markers).get ⟨i, hi⟩).name = some (s, e) →
          nonMutedStripEnds animation_data ≠ [] →
          (∀ x ∈ nonMutedStripEnds animation_data, 0 ≤ x) →
          e ∈ nonMutedStripEnds animation_data ∧
            ∀ x ∈ nonMutedStripEnds animation_data, x ≤ e) ∧
      (∀ (marker_name : String) (s e : Int),
        (get_timeline_marker_sequence_frame_ranges animation_data timeline_markers
              (timeline_markers.map TimelineMarker.name)).lookup marker_name = some (s, e) →
        s ≤ e) := by
  refine ⟨?_, ?_, ?_⟩
  · intro i hi1 hi2 hstrips
    have hmemname : ((sortMarkersByFrame timeline_markers).get ⟨i, hi1⟩).name ∈
        timeline_markers.map TimelineMarker.name :=
      List.mem_map_of_mem _
        ((sortMarkersByFrame_perm timeline_markers).mem_iff.mp (List.get_mem _ _ _))
    rw [lookup_sequence_frame_ranges, if_pos hmemname,
      computeMarkerRange_no_strips animation_data timeline_markers hnd i hi1 hi2 hstrips]
  · intro i hi hlast s e hlook hne hnn
    have hmemname : ((sortMarkersByFrame timeline_markers).get ⟨i, hi⟩).name ∈
        timeline_markers.map TimelineMarker.name :=
      List.mem_map_of_mem _
        ((sortMarkersByFrame_perm timeline_markers).mem_iff.mp (List.get_mem _ _ _))
    rw [lookup_sequence_frame_ranges, if_pos hmemname,
      computeMarkerRange_last animation_data timeline_markers hnd i hi hlast] at hlook
    split at hlook
    · cases hlook
    · rw [Option.some_inj, Prod.ext_iff] at hlook
      simp only at hlook
      have he : e = finalNlaFrameEnd animation_data := hlook.2.symm
      subst he
      rw [finalNlaFrameEnd_eq]
      exact foldl_max_zero_spec (nonMutedStripEnds animation_data) hne hnn
  · intro marker_name s e hlook
    rw [lookup_sequence_frame_ranges] at hlook
    by_cases hmem : marker_name ∈ timeline_markers.map TimelineMarker.name
    · rw [if_pos hmem] at hlook
      exact computeMarkerRange_le animation_data timeline_markers marker_name s e hlook
    · rw [if_neg hmem] at hlook
      cases hlook

/-- Witness for C5 at two markers (frames 0 and 30) and no NLA tracks:
the first marker's window holds no strips, so its emitted range is the
single frame `(0, 0)`. -/
theorem marker_range_window_properties_witness :
    (([⟨"A", 0⟩, ⟨"B", 30⟩] : List TimelineMarker).map TimelineMarker.name).Nodup ∧
      (get_timeline_marker_sequence_frame_ranges ⟨[]⟩ [⟨"A", 0⟩, ⟨"B", 30⟩]
            (([⟨"A", 0⟩, ⟨"B", 30⟩] : List TimelineMarker).map TimelineMarker.name)).lookup
          ((sortMarkersByFrame [⟨"A", 0⟩, ⟨"B", 30⟩]).get ⟨0, by decide⟩).name =
        some (0, 0) := by
  refine ⟨by decide, ?_⟩
  exact (marker_range_window_properties ⟨[]⟩ [⟨"A", 0⟩, ⟨"B", 30⟩] (by decide)).1 0
    (by decide) (by decide) (by decide)
